import Mathlib

/-!
Shallow embedding of the rate-limited Gmail cleanup engine
(src/api/gmail_client.py, src/models/custom_cache.py, src/scheduler.py).

Resource identifiers are opaque (the source uses message-id strings and only
compares them for equality), so the embedding is generic in an id type `α`.
-/

namespace EmailManager

/-- MAX_RETRIES = 5 (GmailClient class constant). -/
def MAX_RETRIES : Nat := 5

/-- MIN_BACKOFF_TIME = 2 seconds (GmailClient class constant). -/
def MIN_BACKOFF_TIME : ℚ := 2

/-- MAX_BACKOFF_TIME = 120 seconds (GmailClient class constant). -/
def MAX_BACKOFF_TIME : ℚ := 120

/-- BATCH_DELAY = 2 seconds (GmailClient class constant). -/
def BATCH_DELAY : ℚ := 2

/-- The deterministic part of the backoff computed by `_handle_rate_limit`:
`backoff = min(self.MAX_BACKOFF_TIME, self.MIN_BACKOFF_TIME * (2 ** retry_count))`. -/
def backoffEnvelope (retry_count : Nat) : ℚ :=
  min MAX_BACKOFF_TIME (MIN_BACKOFF_TIME * 2 ^ retry_count)

/-- Exceptions that can escape `delete_user_emails`:
`RateLimitError` (from `_handle_rate_limit`), a re-raised non-429 `HttpError`,
and the `ValueError` that `range(0, n, 0)` raises when the batch size is 0. -/
inductive DelExc
  | rateLimit
  | httpErr
  | valueError
deriving DecidableEq, Repr

/-- Model of `_handle_rate_limit(retry_count)`, as far as its return value / raising is
concerned.  It raises `RateLimitError` when `retry_count >= MAX_RETRIES`;
otherwise it returns `backoff + jitter` where
`jitter = random.uniform(0, 0.1 * backoff)`.  The random draw is passed in
explicitly as `jitter`. -/
def handle_rate_limit (retry_count : Nat) (jitter : ℚ) : Except DelExc ℚ :=
  if MAX_RETRIES ≤ retry_count then .error .rateLimit
  else .ok (backoffEnvelope retry_count + jitter)

end EmailManager

namespace EmailManager

/-! ## Scheduler (src/scheduler.py) -/

/-- The part of `SchedulerState` that `record_run` touches: `last_run` and
`run_history` (runs are kept abstract, `record_run` never inspects them). -/
structure SchedState (α : Type) where
  last_run : Option α
  run_history : List α
deriving DecidableEq, Repr

/-- Model of `SchedulerManager.record_run`: sets `last_run`, appends to `run_history`
and, when the history exceeds 10 entries, keeps `run_history[-10:]`.
(`self._save()` is I/O and not part of the state transition.)
For a list `h`, Python `h[-10:]` is `h.drop (h.length - 10)`; when
`h.length ≤ 10` that subtraction truncates to 0 and the branch is the
identity, so the conditional collapses to the unconditional drop. -/
def record_run (s : SchedState α) (run : α) : SchedState α :=
  { last_run := some run,
    run_history :=
      if (s.run_history ++ [run]).length > 10 then
        (s.run_history ++ [run]).drop ((s.run_history ++ [run]).length - 10)
      else s.run_history ++ [run] }

/-! ## CustomCache (src/models/custom_cache.py) -/

/-- Model of `CustomCache.__init__`: it seeds a defaultdict with the two known categories. -/
structure CustomCache (α : Type) where
  promotions : List α
  social : List α
deriving DecidableEq, Repr

/-- Error raised by `CustomCache.insert` for unknown categories
(`ValueError(f"Invalid category: {category}")`). -/
inductive CacheErr
  | invalidCategory
deriving DecidableEq, Repr

/-- Model of `CustomCache.insert`: extends the list for `promotions` or `social`,
raises `ValueError` for any other category. -/
def CustomCache.insert (c : CustomCache α) (category : String) (messages : List α) :
    Except CacheErr (CustomCache α) :=
  if category = "promotions" then
    .ok { c with promotions := c.promotions ++ messages }
  else if category = "social" then
    .ok { c with social := c.social ++ messages }
  else
    .error .invalidCategory

/-- Model of `CustomCache.get`: indexing a defaultdict(list) returns the stored list,
or an empty list for any unknown category (never raises). -/
def CustomCache.get (c : CustomCache α) (category : String) : List α :=
  if category = "promotions" then c.promotions
  else if category = "social" then c.social
  else []

end EmailManager

namespace EmailManager

/-! ## Batch deleter (GmailClient.delete_user_emails) -/

/-- Outcome of executing one combined batch request
(`batch_request.execute()`). -/
inductive BatchResp (α : Type)
  | done (ok : α → Bool)
  | throttled
  | httpErr
  | exc

/-- Outcome of one individual `users().messages().trash(...).execute()` call
inside the per-item fallback. -/
inductive ItemResp
  | ok
  | throttled
  | httpErr
  | exc
deriving DecidableEq, Repr

/-- The remote API as seen by `delete_user_emails`.
`batchResp bi a` is what the combined submission of batch number `bi`
(0-based) does on its attempt number `a` (0-based); on `.done ok` each
item`s completion callback reports success exactly when `ok id` holds.
`itemResp id a` is what the individual trash call for `id` does on fallback
attempt `a`. -/
structure DelEnv (α : Type) where
  batchResp : Nat → Nat → BatchResp α
  itemResp : α → Nat → ItemResp

/-- Observable events of one `delete_user_emails` call.
`batchExec batch succ`: a combined batch submission completed, with `succ`
successful per-item callbacks.  `itemTry id`: an individual trash request was
issued for `id` in the fallback.  `itemOk id`: that request succeeded.
`sleepBackoff`: a `time.sleep(backoff)` after a throttling response.
`sleepBatch`: the inter-batch `time.sleep(BATCH_DELAY)`.
`sleepItem`: the fixed `time.sleep(2)` after each fallback item. -/
inductive Ev (α : Type)
  | batchExec (batch : List α) (succ : Nat)
  | itemTry (id : α)
  | itemOk (id : α)
  | sleepBackoff
  | sleepBatch
  | sleepItem
deriving DecidableEq, Repr

/-- Mutable state threaded through `delete_user_emails`:
`deleted_count` (a local of the call), the instance counters
`rate_limit_hits` and `total_requests` (set once in `__init__`, shared across
calls on the same client), and a ghost `trace` of events. -/
structure DelState (α : Type) where
  deleted_count : Nat
  rate_limit_hits : Nat
  total_requests : Nat
  trace : List (Ev α)
deriving DecidableEq, Repr

/-- State with all counters zero and an empty trace. -/
def zeroSt : DelState α := ⟨0, 0, 0, []⟩

/-- Pointwise sum of counters, concatenation of traces. -/
def DelState.app (s t : DelState α) : DelState α :=
  { deleted_count := s.deleted_count + t.deleted_count,
    rate_limit_hits := s.rate_limit_hits + t.rate_limit_hits,
    total_requests := s.total_requests + t.total_requests,
    trace := s.trace ++ t.trace }

/-- Success contribution of one trace event: the per-item callback
successes of a completed batch, or one fallback deletion. -/
def evSucc : Ev α → Nat
  | .batchExec _ succ => succ
  | .itemOk _ => 1
  | _ => 0

/-- Total number of successful per-item deletions recorded in a trace. -/
def succCount (tr : List (Ev α)) : Nat := (tr.map evSucc).sum

/-- The sequence of batch payloads submitted (and completed) during a run,
in submission order. -/
def batchesOf (tr : List (Ev α)) : List (List α) :=
  tr.filterMap (fun e => match e with | .batchExec b _ => some b | _ => none)

/-- Number of individual fallback delete attempts for `id` in a trace. -/
def itemTries [DecidableEq α] (id : α) (tr : List (Ev α)) : Nat :=
  tr.countP (fun e => e = Ev.itemTry id)

/-- Per-item fallback loop: `for individual_retry in range(self.MAX_RETRIES)`.
`budget` counts the iterations left, so the current `individual_retry` index
is `MAX_RETRIES - budget`.  A 429 calls `_handle_rate_limit(individual_retry)`
(which, since `individual_retry ≤ 4 < MAX_RETRIES`, never raises but does
increment `rate_limit_hits`), sleeps, and continues; success increments
`total_requests` and `deleted_count` and breaks; any other error is logged
and breaks, leaving the item failed. -/
def itemLoop (env : DelEnv α) (id : α) : Nat → DelState α → DelState α
  | 0, st => st
  | budget + 1, st =>
    let st := { st with trace := st.trace ++ [.itemTry id] }
    match env.itemResp id (MAX_RETRIES - (budget + 1)) with
    | .ok =>
        { st with total_requests := st.total_requests + 1,
                  deleted_count := st.deleted_count + 1,
                  trace := st.trace ++ [.itemOk id] }
    | .throttled =>
        itemLoop env id budget
          { st with rate_limit_hits := st.rate_limit_hits + 1,
                    trace := st.trace ++ [.sleepBackoff] }
    | .httpErr => st
    | .exc => st

/-- The sequential per-item fallback: each message of the failed batch gets
its own `itemLoop` followed by the unconditional `time.sleep(2)`. -/
def runFallback (env : DelEnv α) (batch : List α) (st : DelState α) : DelState α :=
  batch.foldl
    (fun st id =>
      let st := itemLoop env id MAX_RETRIES st
      { st with trace := st.trace ++ [.sleepItem] })
    st

/-- State update for a completed batch submission: `total_requests` grows by
the batch length, `deleted_count` by the number of successful callbacks, and
the inter-batch sleep happens unless this is the last batch. -/
def batchDoneSt (batch : List α) (isLast : Bool) (ok : α → Bool)
    (st : DelState α) : DelState α :=
  { st with
    total_requests := st.total_requests + batch.length,
    deleted_count := st.deleted_count + batch.countP (fun id => ok id),
    trace := st.trace ++ [.batchExec batch (batch.countP (fun id => ok id))]
                      ++ (if isLast then [] else [.sleepBatch]) }

/-- The `rate_limit_hits` increment done by `_handle_rate_limit` (it happens
before the MAX_RETRIES check, so also on the raising call). -/
def hitSt (st : DelState α) : DelState α :=
  { st with rate_limit_hits := st.rate_limit_hits + 1 }

/-- The `_handle_rate_limit` increment followed by the backoff sleep, for a
throttled submission that will be retried. -/
def backoffSt (st : DelState α) : DelState α :=
  { st with rate_limit_hits := st.rate_limit_hits + 1,
            trace := st.trace ++ [.sleepBackoff] }

/-- The `while True` retry loop for one batch.  `left` encodes the live
`retry_count` as `MAX_RETRIES - retry_count` (so a fresh loop starts at
`left = 5`); the second returned component is the `left` value after the
loop, handed to the next batch (`retry_count` is reset to 0, i.e. `left` to
5, only on batch success).

On a 429 the code increments `retry_count` and calls
`_handle_rate_limit(retry_count)`: that increments `rate_limit_hits` and
raises `RateLimitError` exactly when the incremented count reaches
MAX_RETRIES, i.e. when `left ≤ 1`.  The `RateLimitError`, like the re-raised
non-429 `HttpError`, is raised inside the `except HttpError` clause, so the
sibling `except Exception` clause does NOT catch it and it propagates out of
`delete_user_emails`.  Only a non-HttpError exception from the submission
reaches the `except Exception` clause and triggers the per-item fallback. -/
def batchLoop (env : DelEnv α) (bi : Nat) (batch : List α) (isLast : Bool) :
    Nat → Nat → DelState α → DelState α × Nat × Option DelExc
  | 0, attempt, st =>
    match env.batchResp bi attempt with
    | .done ok => (batchDoneSt batch isLast ok st, MAX_RETRIES, none)
    | .throttled => (hitSt st, 0, some .rateLimit)
    | .httpErr => (st, 0, some .httpErr)
    | .exc => (runFallback env batch st, 0, none)
  | 1, attempt, st =>
    match env.batchResp bi attempt with
    | .done ok => (batchDoneSt batch isLast ok st, MAX_RETRIES, none)
    | .throttled => (hitSt st, 1, some .rateLimit)
    | .httpErr => (st, 1, some .httpErr)
    | .exc => (runFallback env batch st, 1, none)
  | l + 2, attempt, st =>
    match env.batchResp bi attempt with
    | .done ok => (batchDoneSt batch isLast ok st, MAX_RETRIES, none)
    | .throttled => batchLoop env bi batch isLast (l + 1) (attempt + 1) (backoffSt st)
    | .httpErr => (st, l + 2, some .httpErr)
    | .exc => (runFallback env batch st, l + 2, none)

/-- The `for i in range(0, len(messages), self.batch_size)` loop over the
batches, threading the `left` encoding of `retry_count` between them.
The inter-batch sleep happens only on the success path and only when the
batch is not the last one (`i + batch_size < len(messages)`). -/
def processBatches (env : DelEnv α) :
    List (List α) → Nat → Nat → DelState α → DelState α × Option DelExc
  | [], _, _, st => (st, none)
  | b :: rest, bi, left, st =>
    match batchLoop env bi b rest.isEmpty left 0 st with
    | (st, left, none) => processBatches env rest (bi + 1) left st
    | (st, _, some e) => (st, some e)

/-- The `messages[i:i+bs]` slicing loop, fuel-indexed to stay structurally
recursive; with `bs ≥ 1`, fuel `l.length` always suffices. -/
def chunksGo (bs : Nat) : Nat → List α → List (List α)
  | 0, _ => []
  | _, [] => []
  | fuel + 1, l => l.take bs :: chunksGo bs fuel (l.drop bs)

/-- The list of slices `messages[i:i+bs]` for `i = 0, bs, 2*bs, ...`. -/
def chunkList (bs : Nat) (l : List α) : List (List α) :=
  chunksGo bs l.length l

/-- From `GmailClient.__init__`: `self.batch_size = min(batch_size, 25)`. -/
def effBatchSize (batch_size : Nat) : Nat := min batch_size 25

/-- Model of `delete_user_emails(cache, category)`.  Here `cache` models the
`Dict[str, List[dict]]` parameter via its `.get` (`none` for a missing key);
`st₀` carries the instance counters coming into the call (the constructor
zeroes them once; later calls on the same client inherit them).
`deleted_count` is a fresh local (starts at 0); the trace records only this
call`s events.  `if not messages` returns 0 for a missing or empty category;
with a nonempty list and batch size 0, `range(0, n, 0)` raises `ValueError`. -/
def delete_user_emails (env : DelEnv α) (cache : String → Option (List α))
    (batch_size : Nat) (category : String) (st₀ : DelState α) :
    DelState α × Option DelExc :=
  let bs := effBatchSize batch_size
  let st : DelState α :=
    { deleted_count := 0, rate_limit_hits := st₀.rate_limit_hits,
      total_requests := st₀.total_requests, trace := [] }
  match cache category with
  | none => (st, none)
  | some messages =>
    if messages.isEmpty then (st, none)
    else if bs = 0 then (st, some .valueError)
    else processBatches env (chunkList bs messages) 0 MAX_RETRIES st

/-- What the caller of `delete_user_emails` actually receives: the integer
`deleted_count` on normal return, or the escaped exception.  The instance
counters and the ghost trace are not part of the return value. -/
def returnedValue (env : DelEnv α) (cache : String → Option (List α))
    (batch_size : Nat) (category : String) (st₀ : DelState α) :
    Nat × Option DelExc :=
  let r := delete_user_emails env cache batch_size category st₀
  (r.1.deleted_count, r.2)

end EmailManager

namespace EmailManager

/-! ## Resource lister (GmailClient.fetch_user_emails) -/

/-- One response of `users().messages().list(...).execute()`.
`page ids next`: a successful page; `next` says whether a `nextPageToken`
was returned.  `throttled`: an `HttpError` with status 429.  `err`: any
other exception (a non-429 `HttpError`, or anything else). -/
inductive ListResp (α : Type)
  | page (ids : List α) (next : Bool)
  | throttled
  | err
deriving DecidableEq, Repr

/-- Result of `fetch_user_emails`: the accumulated id list, or the
`GmailError` into which the outer `except Exception` wraps every failure
(including the `RateLimitError` raised when `retry_count` reaches
MAX_RETRIES).  `incomplete` marks the unreachable case of the modelled
response stream running out while the loop still wants another page. -/
inductive FetchResult (α : Type)
  | ok (ids : List α)
  | err
  | incomplete
deriving DecidableEq, Repr

/-- The `while True` paging loop of `fetch_user_emails`.  Each `list` call
consumes the next entry of `stream`.  On a page: if `messages` is empty the
loop breaks at once (nothing appended); otherwise the ids are appended and
the loop continues exactly when a `nextPageToken` came back.  On a 429 the
code increments `retry_count` (NEVER reset on a successful page) and calls
`_handle_rate_limit(retry_count)`, which raises once the count reaches
MAX_RETRIES; then it retries the same page (the token is untouched).  Any
other error propagates to the outer handler. -/
def fetchGo : List (ListResp α) → Nat → List α → FetchResult α
  | [], _, _ => .incomplete
  | r :: rest, retry_count, acc =>
    match r with
    | .page ids next =>
        if ids.isEmpty then .ok acc
        else if next then fetchGo rest retry_count (acc ++ ids)
        else .ok (acc ++ ids)
    | .throttled =>
        if MAX_RETRIES ≤ retry_count + 1 then .err
        else fetchGo rest (retry_count + 1) acc
    | .err => .err

/-- Model of `fetch_user_emails` on a given response stream: the loop starts with an
empty accumulator and `retry_count = 0`. -/
def fetch_user_emails (stream : List (ListResp α)) : FetchResult α :=
  fetchGo stream 0 []

/-- Encode a sequence of successful pages as a response stream: every page
but the last carries a continuation token. -/
def pagesToStream : List (List α) → List (ListResp α)
  | [] => []
  | [p] => [.page p false]
  | p :: rest => .page p true :: pagesToStream rest

/-- Number of throttling responses in a stream. -/
def countThrottles (stream : List (ListResp α)) : Nat :=
  stream.countP (fun r => match r with | .throttled => true | _ => false)

/-- The stream with its throttling responses removed. -/
def dropThrottles (stream : List (ListResp α)) : List (ListResp α) :=
  stream.filter (fun r => match r with | .throttled => false | _ => true)

end EmailManager

namespace EmailManager

/-! ## Helper lemmas -/

/-- Lemma: `record_run` always keeps exactly the last `min (length+1) 10` entries:
the conditional in the source collapses to one unconditional drop. -/
theorem record_run_eq (s : SchedState α) (r : α) :
    record_run s r =
      { last_run := some r,
        run_history :=
          (s.run_history ++ [r]).drop ((s.run_history ++ [r]).length - 10) } := by
  unfold record_run
  by_cases h : (s.run_history ++ [r]).length > 10
  · rw [if_pos h]
  · rw [if_neg h]
    have h0 : (s.run_history ++ [r]).length - 10 = 0 := by omega
    rw [h0, List.drop_zero]

/-- Folding `record_run` over a nonempty list of runs leaves exactly the
last ten of (prior history ++ new runs), in order. -/
theorem foldl_record_run (runs : List α) (hne : runs ≠ []) :
    ∀ s : SchedState α,
      (List.foldl record_run s runs).run_history =
        (s.run_history ++ runs).drop ((s.run_history ++ runs).length - 10) := by
  induction runs with
  | nil => cases hne rfl
  | cons r rest ih =>
    intro s
    by_cases hrest : rest = []
    · subst hrest
      simp only [List.foldl_cons, List.foldl_nil]
      rw [record_run_eq]
    · rw [List.foldl_cons, ih hrest]
      rw [record_run_eq]
      have hk : (s.run_history ++ [r]).length - 10 ≤ (s.run_history ++ [r]).length :=
        Nat.sub_le _ _
      rw [← List.drop_append_of_le_length hk, List.drop_drop]
      have harr : s.run_history ++ [r] ++ rest = s.run_history ++ r :: rest := by
        simp
      rw [harr]
      congr 1
      simp only [List.length_drop, List.length_append, List.length_cons,
        List.length_nil]
      omega

end EmailManager

namespace EmailManager

/-! ## Claims -/

/-- Claim C4 (confirmed): for every attempt index `n` below MAX_RETRIES,
`_handle_rate_limit` returns `min(MAX_BACKOFF, MIN_BACKOFF * 2^n)` plus the
uniform jitter drawn from `[0, 10%]` of that value; for such `n` the
envelope is not yet saturated (it equals `MIN_BACKOFF * 2^n`), the returned
delay lies in `[MIN_BACKOFF * 2^n, 1.1 * MIN_BACKOFF * 2^n]`, and the
deterministic envelope is monotonically non-decreasing in `n`. -/
theorem backoff_delay_spec (n : Nat) (j : ℚ)
    (hn : n < MAX_RETRIES) (hj0 : 0 ≤ j) (hj1 : j ≤ backoffEnvelope n / 10) :
    handle_rate_limit n j = .ok (backoffEnvelope n + j) ∧
    backoffEnvelope n = MIN_BACKOFF_TIME * 2 ^ n ∧
    MIN_BACKOFF_TIME * 2 ^ n ≤ backoffEnvelope n + j ∧
    backoffEnvelope n + j ≤ 11 / 10 * (MIN_BACKOFF_TIME * 2 ^ n) ∧
    ∀ m : Nat, backoffEnvelope m ≤ backoffEnvelope (m + 1) := by
  have hsat : backoffEnvelope n = MIN_BACKOFF_TIME * 2 ^ n := by
    have h4 : n ≤ 4 := by
      simpa [MAX_RETRIES] using Nat.lt_succ_iff.mp hn
    have hpow : (2 : ℚ) ^ n ≤ 2 ^ 4 :=
      pow_le_pow_right₀ (by norm_num) h4
    have : MIN_BACKOFF_TIME * 2 ^ n ≤ MAX_BACKOFF_TIME := by
      rw [MIN_BACKOFF_TIME, MAX_BACKOFF_TIME]
      nlinarith
    simpa [backoffEnvelope] using min_eq_right this
  refine ⟨?_, hsat, ?_, ?_, ?_⟩
  · have : ¬ MAX_RETRIES ≤ n := Nat.not_le.mpr hn
    simp [handle_rate_limit, this]
  · rw [← hsat]; linarith
  · rw [← hsat]; rw [hsat] at hj1; linarith
  · intro m
    apply min_le_min le_rfl
    have hpow : (2 : ℚ) ^ m ≤ 2 ^ (m + 1) :=
      pow_le_pow_right₀ (by norm_num) (Nat.le_succ m)
    have h0 : (0 : ℚ) ≤ 2 := by norm_num
    rw [MIN_BACKOFF_TIME]
    nlinarith

/-- Witness for C4 at `n = 3`, `j = 0`. -/
theorem backoff_delay_spec_witness :
    (3 < MAX_RETRIES ∧ (0 : ℚ) ≤ 0 ∧ (0 : ℚ) ≤ backoffEnvelope 3 / 10) ∧
    (handle_rate_limit 3 0 = .ok (backoffEnvelope 3 + 0) ∧
     backoffEnvelope 3 = MIN_BACKOFF_TIME * 2 ^ 3 ∧
     MIN_BACKOFF_TIME * 2 ^ 3 ≤ backoffEnvelope 3 + 0 ∧
     backoffEnvelope 3 + 0 ≤ 11 / 10 * (MIN_BACKOFF_TIME * 2 ^ 3) ∧
     ∀ m : Nat, backoffEnvelope m ≤ backoffEnvelope (m + 1)) :=
  ⟨⟨by decide, le_refl 0, by
      rw [backoffEnvelope, MAX_BACKOFF_TIME, MIN_BACKOFF_TIME]; positivity⟩,
   backoff_delay_spec 3 0 (by decide) (le_refl 0) (by
      rw [backoffEnvelope, MAX_BACKOFF_TIME, MIN_BACKOFF_TIME]; positivity)⟩

/-- Claim C10 (confirmed): after every `record_run`, the history holds at
most 10 entries, is a suffix of (previous history ++ the new run) — hence
the most recently recorded runs in recording order, with the new run last —
and `last_run` is the run just recorded; folding any nonempty run sequence
from a state keeps exactly the last ten recorded runs in order. -/
theorem record_run_history_invariant (s : SchedState α) (r : α) :
    (record_run s r).last_run = some r ∧
    (record_run s r).run_history.length ≤ 10 ∧
    (record_run s r).run_history <:+ s.run_history ++ [r] ∧
    (record_run s r).run_history.getLast? = some r ∧
    (s.run_history.length + 1 ≤ 10 →
      (record_run s r).run_history = s.run_history ++ [r]) ∧
    ∀ runs : List α, runs ≠ [] →
      (List.foldl record_run s runs).run_history =
        (s.run_history ++ runs).drop ((s.run_history ++ runs).length - 10) := by
  rw [record_run_eq]
  refine ⟨rfl, ?_, ?_, ?_, ?_, ?_⟩
  · simp only [List.length_drop]; omega
  · exact List.drop_suffix _ _
  · have hk : (s.run_history ++ [r]).length - 10 ≤ s.run_history.length := by
      simp only [List.length_append, List.length_singleton]; omega
    rw [List.drop_append_of_le_length hk]
    exact List.getLast?_concat _
  · intro h
    have h0 : (s.run_history ++ [r]).length - 10 = 0 := by
      simp only [List.length_append, List.length_cons, List.length_nil]; omega
    rw [h0, List.drop_zero]
  · intro runs hne
    exact foldl_record_run runs hne s

/-- Witness for C10: a state with 11 prior entries keeps the last ten,
and recording 12 runs from scratch keeps runs 2..11. -/
theorem record_run_history_invariant_witness :
    (record_run (⟨none, [0, 1]⟩ : SchedState Nat) 2).run_history = [0, 1, 2] ∧
    (record_run (⟨none, [0, 1]⟩ : SchedState Nat) 2).last_run = some 2 ∧
    (List.foldl record_run (⟨none, []⟩ : SchedState Nat)
        (List.range 12)).run_history = (List.range 12).drop 2 := by
  refine ⟨?_, (record_run_history_invariant ⟨none, [0, 1]⟩ 2).1, ?_⟩
  · exact (record_run_history_invariant ⟨none, [0, 1]⟩ 2).2.2.2.2.1 (by decide)
  · have h := (record_run_history_invariant (⟨none, []⟩ : SchedState Nat) 2).2.2.2.2.2
      (List.range 12) (by decide)
    simpa using h

/-- Claim C9 (confirmed): `delete_user_emails` with a category missing from
the cache, or mapped to an empty list, returns 0 deletions with no remote
request and no exception, while `CustomCache.insert` with any category other
than "promotions" or "social" raises `ValueError` — the two paths treat an
unknown category inconsistently. -/
theorem category_handling_inconsistency {α : Type}
    (env : DelEnv α) (cache : String → Option (List α)) (b : Nat)
    (cat : String) (st₀ : DelState α) (c : CustomCache α) (msgs : List α) :
    (cache cat = none →
      delete_user_emails env cache b cat st₀ =
        (⟨0, st₀.rate_limit_hits, st₀.total_requests, []⟩, none)) ∧
    (cache cat = some [] →
      delete_user_emails env cache b cat st₀ =
        (⟨0, st₀.rate_limit_hits, st₀.total_requests, []⟩, none)) ∧
    (cat ≠ "promotions" → cat ≠ "social" →
      CustomCache.insert c cat msgs = .error .invalidCategory) := by
  refine ⟨fun h => ?_, fun h => ?_, fun h1 h2 => ?_⟩
  · simp [delete_user_emails, h]
  · simp [delete_user_emails, h]
  · simp [CustomCache.insert, h1, h2]

/-- Witness for C9: category "primary", absent from the delete cache and
rejected by the cache insert. -/
theorem category_handling_inconsistency_witness :
    delete_user_emails (⟨fun _ _ => .throttled, fun _ _ => .ok⟩ : DelEnv Nat)
        (fun _ => none) 20 "primary" zeroSt = (⟨0, 0, 0, []⟩, none) ∧
    CustomCache.insert (⟨[], []⟩ : CustomCache Nat) "primary" [5] =
      .error .invalidCategory := by
  refine ⟨?_, ?_⟩
  · exact (category_handling_inconsistency (⟨fun _ _ => .throttled, fun _ _ => .ok⟩)
      (fun _ => none) 20 "primary" zeroSt ⟨[], []⟩ [5]).1 rfl
  · exact (category_handling_inconsistency (⟨fun _ _ => .throttled, fun _ _ => .ok⟩ : DelEnv Nat)
      (fun _ => none) 20 "primary" zeroSt ⟨[], []⟩ [5]).2.2 (by decide) (by decide)

end EmailManager

namespace EmailManager

/-! ## State decomposition lemmas

Every loop of `delete_user_emails` only ever adds to the counters and
appends to the trace, so each of them commutes with prepending a base
state.  These frame lemmas let every later proof reason from the zero
state. -/

theorem DelState.app_zero (s : DelState α) : s.app zeroSt = s := by
  simp [DelState.app, zeroSt]

theorem DelState.zero_app (s : DelState α) : zeroSt.app s = s := by
  simp [DelState.app, zeroSt]

theorem DelState.app_assoc (s t u : DelState α) :
    (s.app t).app u = s.app (t.app u) := by
  simp [DelState.app, Nat.add_assoc]

theorem itemLoop_app (env : DelEnv α) (id : α) :
    ∀ (b : Nat) (s t : DelState α),
      itemLoop env id b (s.app t) = s.app (itemLoop env id b t) := by
  intro b
  induction b with
  | zero => intro s t; rfl
  | succ n ih =>
    intro s t
    simp only [itemLoop]
    cases henv : env.itemResp id (MAX_RETRIES - (n + 1)) with
    | ok => simp [DelState.app, Nat.add_assoc]
    | throttled =>
      have harg :
          ({ (s.app t) with
              rate_limit_hits := (s.app t).rate_limit_hits + 1,
              trace := (s.app t).trace ++ [.itemTry id] ++ [.sleepBackoff] }
            : DelState α) =
          s.app { t with rate_limit_hits := t.rate_limit_hits + 1,
                         trace := t.trace ++ [.itemTry id] ++ [.sleepBackoff] } := by
        simp [DelState.app, Nat.add_assoc]
      rw [harg, ih]
    | httpErr => simp [DelState.app]
    | exc => simp [DelState.app]

theorem runFallback_app (env : DelEnv α) :
    ∀ (batch : List α) (s t : DelState α),
      runFallback env batch (s.app t) = s.app (runFallback env batch t) := by
  intro batch
  induction batch with
  | nil => intro s t; rfl
  | cons id rest ih =>
    intro s t
    simp only [runFallback, List.foldl_cons]
    rw [itemLoop_app]
    have harg :
        ({ (s.app (itemLoop env id MAX_RETRIES t)) with
            trace := (s.app (itemLoop env id MAX_RETRIES t)).trace ++ [.sleepItem] }
          : DelState α) =
        s.app { (itemLoop env id MAX_RETRIES t) with
                trace := (itemLoop env id MAX_RETRIES t).trace ++ [.sleepItem] } := by
      simp [DelState.app]
    rw [harg]
    exact ih s _

theorem batchDoneSt_app (batch : List α) (isLast : Bool) (ok : α → Bool)
    (s t : DelState α) :
    batchDoneSt batch isLast ok (s.app t) = s.app (batchDoneSt batch isLast ok t) := by
  simp [batchDoneSt, DelState.app, Nat.add_assoc, List.append_assoc]

theorem hitSt_app (s t : DelState α) : hitSt (s.app t) = s.app (hitSt t) := by
  simp [hitSt, DelState.app, Nat.add_assoc]

theorem backoffSt_app (s t : DelState α) :
    backoffSt (s.app t) = s.app (backoffSt t) := by
  simp [backoffSt, DelState.app, Nat.add_assoc, List.append_assoc]

theorem batchLoop_app (env : DelEnv α) (bi : Nat) (batch : List α) (isLast : Bool) :
    ∀ (left attempt : Nat) (s t : DelState α),
      batchLoop env bi batch isLast left attempt (s.app t) =
        (s.app (batchLoop env bi batch isLast left attempt t).1,
         (batchLoop env bi batch isLast left attempt t).2.1,
         (batchLoop env bi batch isLast left attempt t).2.2) := by
  intro left
  induction left using Nat.strong_induction_on with
  | _ left ih =>
    intro attempt s t
    match left with
    | 0 =>
      simp only [batchLoop]
      cases henv : env.batchResp bi attempt with
      | done ok => simp [batchDoneSt_app]
      | throttled => simp [hitSt_app]
      | httpErr => simp
      | exc => simp [runFallback_app]
    | 1 =>
      simp only [batchLoop]
      cases henv : env.batchResp bi attempt with
      | done ok => simp [batchDoneSt_app]
      | throttled => simp [hitSt_app]
      | httpErr => simp
      | exc => simp [runFallback_app]
    | l + 2 =>
      simp only [batchLoop]
      cases henv : env.batchResp bi attempt with
      | done ok => simp [batchDoneSt_app]
      | throttled => rw [backoffSt_app]; exact ih (l + 1) (by omega) (attempt + 1) s _
      | httpErr => simp
      | exc => simp [runFallback_app]

theorem processBatches_app (env : DelEnv α) :
    ∀ (bs : List (List α)) (bi left : Nat) (s t : DelState α),
      processBatches env bs bi left (s.app t) =
        (s.app (processBatches env bs bi left t).1,
         (processBatches env bs bi left t).2) := by
  intro bs
  induction bs with
  | nil => intro bi left s t; rfl
  | cons b rest ih =>
    intro bi left s t
    simp only [processBatches]
    rw [batchLoop_app]
    cases hb : batchLoop env bi b rest.isEmpty left 0 t with
    | mk st1 r2 =>
      cases r2 with
      | mk left1 e =>
        cases e with
        | none => simp only []; exact ih (bi + 1) left1 s st1
        | some ex => simp only []

end EmailManager

namespace EmailManager

/-! ## Decomposition from the zero state -/

theorem itemLoop_decomp (env : DelEnv α) (id : α) (b : Nat) (st : DelState α) :
    itemLoop env id b st = st.app (itemLoop env id b zeroSt) := by
  conv_lhs => rw [← DelState.app_zero st]
  rw [itemLoop_app]

theorem runFallback_decomp (env : DelEnv α) (batch : List α) (st : DelState α) :
    runFallback env batch st = st.app (runFallback env batch zeroSt) := by
  conv_lhs => rw [← DelState.app_zero st]
  rw [runFallback_app]

theorem batchLoop_decomp (env : DelEnv α) (bi : Nat) (batch : List α)
    (isLast : Bool) (left attempt : Nat) (st : DelState α) :
    batchLoop env bi batch isLast left attempt st =
      (st.app (batchLoop env bi batch isLast left attempt zeroSt).1,
       (batchLoop env bi batch isLast left attempt zeroSt).2.1,
       (batchLoop env bi batch isLast left attempt zeroSt).2.2) := by
  conv_lhs => rw [← DelState.app_zero st]
  rw [batchLoop_app]

theorem processBatches_decomp (env : DelEnv α) (bs : List (List α))
    (bi left : Nat) (st : DelState α) :
    processBatches env bs bi left st =
      (st.app (processBatches env bs bi left zeroSt).1,
       (processBatches env bs bi left zeroSt).2) := by
  conv_lhs => rw [← DelState.app_zero st]
  rw [processBatches_app]

/-- Unfolding helpers for the fallback fold. -/
theorem runFallback_nil (env : DelEnv α) (st : DelState α) :
    runFallback env [] st = st := rfl

theorem runFallback_cons (env : DelEnv α) (id : α) (rest : List α) (st : DelState α) :
    runFallback env (id :: rest) st =
      runFallback env rest
        { (itemLoop env id MAX_RETRIES st) with
          trace := (itemLoop env id MAX_RETRIES st).trace ++ [.sleepItem] } := rfl

theorem succCount_append (a b : List (Ev α)) :
    succCount (a ++ b) = succCount a + succCount b := by
  simp [succCount]

/-! ## deleted_count counts exactly the successful per-item deletions -/

theorem itemLoop_dc (env : DelEnv α) (id : α) :
    ∀ b : Nat, (itemLoop env id b zeroSt).deleted_count =
      succCount (itemLoop env id b zeroSt).trace := by
  intro b
  induction b with
  | zero => rfl
  | succ n ih =>
    simp only [itemLoop]
    cases henv : env.itemResp id (MAX_RETRIES - (n + 1)) with
    | ok => simp [zeroSt, succCount, evSucc]
    | throttled =>
      rw [itemLoop_decomp]
      simp only [DelState.app, succCount_append]
      rw [ih]
      simp [zeroSt, succCount, evSucc]
    | httpErr => simp [zeroSt, succCount, evSucc]
    | exc => simp [zeroSt, succCount, evSucc]

theorem runFallback_dc (env : DelEnv α) :
    ∀ batch : List α, (runFallback env batch zeroSt).deleted_count =
      succCount (runFallback env batch zeroSt).trace := by
  intro batch
  induction batch with
  | nil => rfl
  | cons id rest ih =>
    rw [runFallback_cons, runFallback_decomp]
    simp [DelState.app, succCount_append, ih, itemLoop_dc, succCount, evSucc]

theorem batchLoop_dc (env : DelEnv α) (bi : Nat) (batch : List α) (isLast : Bool) :
    ∀ left attempt : Nat,
      (batchLoop env bi batch isLast left attempt zeroSt).1.deleted_count =
        succCount (batchLoop env bi batch isLast left attempt zeroSt).1.trace := by
  intro left
  induction left using Nat.strong_induction_on with
  | _ left ih =>
    intro attempt
    match left with
    | 0 =>
      simp only [batchLoop]
      cases henv : env.batchResp bi attempt with
      | done ok =>
        cases isLast <;>
          simp [batchDoneSt, zeroSt, succCount, evSucc]
      | throttled => simp [hitSt, zeroSt, succCount]
      | httpErr => simp [zeroSt, succCount]
      | exc => simpa using runFallback_dc env batch
    | 1 =>
      simp only [batchLoop]
      cases henv : env.batchResp bi attempt with
      | done ok =>
        cases isLast <;>
          simp [batchDoneSt, zeroSt, succCount, evSucc]
      | throttled => simp [hitSt, zeroSt, succCount]
      | httpErr => simp [zeroSt, succCount]
      | exc => simpa using runFallback_dc env batch
    | l + 2 =>
      simp only [batchLoop]
      cases henv : env.batchResp bi attempt with
      | done ok =>
        cases isLast <;>
          simp [batchDoneSt, zeroSt, succCount, evSucc]
      | throttled =>
        rw [batchLoop_decomp]
        have hrec := ih (l + 1) (by omega) (attempt + 1)
        simp only [DelState.app, succCount_append]
        rw [hrec]
        simp [backoffSt, zeroSt, succCount, evSucc]
      | httpErr => simp [zeroSt, succCount]
      | exc => simpa using runFallback_dc env batch

theorem processBatches_dc (env : DelEnv α) :
    ∀ (bs : List (List α)) (bi left : Nat),
      (processBatches env bs bi left zeroSt).1.deleted_count =
        succCount (processBatches env bs bi left zeroSt).1.trace := by
  intro bs
  induction bs with
  | nil => intro bi left; rfl
  | cons b rest ih =>
    intro bi left
    simp only [processBatches]
    cases hb : batchLoop env bi b rest.isEmpty left 0 zeroSt with
    | mk st1 r2 =>
      have hst1 : st1.deleted_count = succCount st1.trace := by
        have := batchLoop_dc env bi b rest.isEmpty left 0
        rw [hb] at this
        exact this
      cases r2 with
      | mk left1 e =>
        cases e with
        | none =>
          simp only []
          rw [processBatches_decomp]
          simp only [DelState.app, succCount_append]
          rw [ih]
          omega
        | some ex => simpa using hst1

/-- Decomposition: `delete_user_emails` splits into the incoming instance counters plus the
effect of the same call started from the zero state. -/
theorem delete_user_emails_decomp (env : DelEnv α)
    (cache : String → Option (List α)) (b : Nat) (cat : String)
    (st₀ : DelState α) :
    delete_user_emails env cache b cat st₀ =
      ((⟨0, st₀.rate_limit_hits, st₀.total_requests, []⟩ : DelState α).app
          (delete_user_emails env cache b cat zeroSt).1,
       (delete_user_emails env cache b cat zeroSt).2) := by
  unfold delete_user_emails
  cases hcc : cache cat with
  | none => simp [DelState.app, zeroSt]
  | some messages =>
    by_cases hm : messages.isEmpty
    · simp [hm, DelState.app, zeroSt]
    · by_cases hbs : effBatchSize b = 0
      · simp [hm, hbs, DelState.app, zeroSt]
      · simp only [hm, hbs, if_false]
        have hz : (⟨0, (zeroSt : DelState α).rate_limit_hits,
            (zeroSt : DelState α).total_requests, []⟩ : DelState α) = zeroSt := rfl
        rw [hz]
        have hb0 : (⟨0, st₀.rate_limit_hits, st₀.total_requests, []⟩ : DelState α) =
            (⟨0, st₀.rate_limit_hits, st₀.total_requests, []⟩ : DelState α).app
              zeroSt := by
          simp [DelState.app, zeroSt]
        rw [hb0, processBatches_app]
        simp [DelState.app, zeroSt]

end EmailManager

namespace EmailManager

theorem delete_dc_zero (env : DelEnv α) (cache : String → Option (List α))
    (b : Nat) (cat : String) :
    (delete_user_emails env cache b cat zeroSt).1.deleted_count =
      succCount (delete_user_emails env cache b cat zeroSt).1.trace := by
  unfold delete_user_emails
  cases hcc : cache cat with
  | none => rfl
  | some messages =>
    by_cases hm : messages.isEmpty
    · simp [hm, succCount]
    · by_cases hbs : effBatchSize b = 0
      · simp [hm, hbs, succCount]
      · simp only [hm, hbs, if_false]
        have hz : (⟨0, (zeroSt : DelState α).rate_limit_hits,
            (zeroSt : DelState α).total_requests, []⟩ : DelState α) = zeroSt := rfl
        rw [hz]
        exact processBatches_dc env _ 0 MAX_RETRIES

/-- Claim C7 (corrected): the source returns a bare integer to its caller —
two environments whose per-item outcomes differ (the first fails exactly id
1, the second fails exactly id 0) produce identical returned values, so the
return value cannot identify which items terminally failed; no `(id,
reason)` error sequence is part of the interface. -/
theorem delete_errors_not_returned :
    returnedValue (⟨fun _ _ => .done (fun x => x == 0), fun _ _ => .ok⟩ : DelEnv Nat)
        (fun c => if c = "promotions" then some [0, 1] else none)
        20 "promotions" zeroSt =
      returnedValue (⟨fun _ _ => .done (fun x => x == 1), fun _ _ => .ok⟩ : DelEnv Nat)
        (fun c => if c = "promotions" then some [0, 1] else none)
        20 "promotions" zeroSt ∧
    returnedValue (⟨fun _ _ => .done (fun x => x == 0), fun _ _ => .ok⟩ : DelEnv Nat)
        (fun c => if c = "promotions" then some [0, 1] else none)
        20 "promotions" zeroSt = (1, none) ∧
    (fun x : Nat => x == 0) 1 = false ∧ (fun x : Nat => x == 1) 1 = true := by
  refine ⟨?_, ?_, rfl, rfl⟩ <;> decide

/-- Claim C7 (amended): `delete_user_emails` returns to its caller only the
integer `deleted_count` (or lets an exception escape); that integer equals
the total number of per-item successes accumulated in the run. -/
theorem delete_returns_count_only (env : DelEnv α)
    (cache : String → Option (List α)) (b : Nat) (cat : String)
    (st₀ : DelState α) :
    returnedValue env cache b cat st₀ =
      ((delete_user_emails env cache b cat st₀).1.deleted_count,
       (delete_user_emails env cache b cat st₀).2) ∧
    (delete_user_emails env cache b cat st₀).1.deleted_count =
      succCount (delete_user_emails env cache b cat st₀).1.trace := by
  refine ⟨rfl, ?_⟩
  rw [delete_user_emails_decomp]
  simp only [DelState.app, succCount_append]
  rw [delete_dc_zero]
  simp [succCount]

/-- Claim C8 (corrected): `rate_limit_hits` is never reset between runs.
Concretely, with an environment that throttles once before each batch
succeeds, a first run reports 1 rate-limit hit; a second run on the same
client instance (starting from the first run's final state) ends with
`rate_limit_hits = 2` even though the second run itself was throttled only
once — the end-of-run summary includes the previous run. -/
theorem counters_carry_across_runs :
    (delete_user_emails
        (⟨fun _ a => if a = 0 then .throttled else .done (fun _ => true),
          fun _ _ => .ok⟩ : DelEnv Nat)
        (fun c => if c = "promotions" then some [0] else none)
        20 "promotions" zeroSt).1.rate_limit_hits = 1 ∧
    (delete_user_emails
        (⟨fun _ a => if a = 0 then .throttled else .done (fun _ => true),
          fun _ _ => .ok⟩ : DelEnv Nat)
        (fun c => if c = "promotions" then some [0] else none)
        20 "promotions"
        (delete_user_emails
          (⟨fun _ a => if a = 0 then .throttled else .done (fun _ => true),
            fun _ _ => .ok⟩ : DelEnv Nat)
          (fun c => if c = "promotions" then some [0] else none)
          20 "promotions" zeroSt).1).1.rate_limit_hits = 2 := by
  constructor <;> decide

/-- Claim C8 (amended): `deleted_count` and the outcome are per-run (they do
not depend on the instance counters carried into the call), while
`rate_limit_hits` and `total_requests` are NOT reset at the start of a run:
the call adds this run's hits and requests on top of whatever the instance
already accumulated. -/
theorem run_counters_not_reset (env : DelEnv α)
    (cache : String → Option (List α)) (b : Nat) (cat : String)
    (st₀ : DelState α) :
    (delete_user_emails env cache b cat st₀).1.deleted_count =
      (delete_user_emails env cache b cat zeroSt).1.deleted_count ∧
    (delete_user_emails env cache b cat st₀).1.rate_limit_hits =
      st₀.rate_limit_hits +
        (delete_user_emails env cache b cat zeroSt).1.rate_limit_hits ∧
    (delete_user_emails env cache b cat st₀).1.total_requests =
      st₀.total_requests +
        (delete_user_emails env cache b cat zeroSt).1.total_requests ∧
    (delete_user_emails env cache b cat st₀).2 =
      (delete_user_emails env cache b cat zeroSt).2 := by
  rw [delete_user_emails_decomp env cache b cat st₀]
  simp [DelState.app]

end EmailManager

namespace EmailManager

/-! ## chunkList facts -/

theorem chunksGo_eq_chunkList (bs : Nat) (hbs : 1 ≤ bs) :
    ∀ (fuel : Nat) (l : List α), l.length ≤ fuel →
      chunksGo bs fuel l = chunkList bs l := by
  intro fuel
  induction fuel using Nat.strong_induction_on with
  | _ fuel ih =>
    intro l hl
    cases l with
    | nil => cases fuel <;> rfl
    | cons x xs =>
      cases fuel with
      | zero => simp at hl
      | succ n =>
        have h1 : (List.drop bs (x :: xs)).length ≤ n := by
          simp only [List.length_drop, List.length_cons]
          simp only [List.length_cons] at hl
          omega
        have h2 : (List.drop bs (x :: xs)).length ≤ xs.length := by
          simp only [List.length_drop, List.length_cons]
          omega
        show _ = chunksGo bs (xs.length + 1) (x :: xs)
        simp only [chunksGo]
        congr 1
        calc chunksGo bs n (List.drop bs (x :: xs))
            = chunkList bs (List.drop bs (x :: xs)) := ih n (by omega) _ h1
          _ = chunksGo bs xs.length (List.drop bs (x :: xs)) :=
              (ih xs.length (by simp only [List.length_cons] at hl; omega) _ h2).symm

theorem chunkList_cons (bs : Nat) (hbs : 1 ≤ bs) (l : List α) (hl : l ≠ []) :
    chunkList bs l = l.take bs :: chunkList bs (l.drop bs) := by
  cases l with
  | nil => cases hl rfl
  | cons x xs =>
    show chunksGo bs (xs.length + 1) (x :: xs) = _
    simp only [chunksGo]
    congr 1
    exact chunksGo_eq_chunkList bs hbs xs.length _
      (by simp only [List.length_drop, List.length_cons]; omega)

theorem drop_length_le {l : List α} (h : l ≠ []) (bs : Nat) (hbs : 1 ≤ bs)
    (n : Nat) (hl : l.length ≤ n + 1) : (l.drop bs).length ≤ n := by
  cases l with
  | nil => cases h rfl
  | cons x xs =>
    simp only [List.length_drop, List.length_cons]
    simp only [List.length_cons] at hl
    omega

theorem chunkList_join (bs : Nat) (hbs : 1 ≤ bs) :
    ∀ (n : Nat) (l : List α), l.length ≤ n → (chunkList bs l).flatten = l := by
  intro n
  induction n with
  | zero =>
    intro l hl
    have : l = [] := List.length_eq_zero.mp (Nat.le_zero.mp hl)
    subst this; rfl
  | succ n ih =>
    intro l hl
    by_cases h : l = []
    · subst h; rfl
    · rw [chunkList_cons bs hbs l h]
      simp only [List.flatten_cons]
      rw [ih (l.drop bs) (drop_length_le h bs hbs n hl)]
      exact List.take_append_drop bs l

theorem chunkList_sizes (bs : Nat) (hbs : 1 ≤ bs) :
    ∀ (n : Nat) (l : List α), l.length ≤ n →
      ∀ c ∈ chunkList bs l, c ≠ [] ∧ c.length ≤ bs := by
  intro n
  induction n with
  | zero =>
    intro l hl c hc
    have : l = [] := List.length_eq_zero.mp (Nat.le_zero.mp hl)
    subst this; simp [chunkList, chunksGo] at hc
  | succ n ih =>
    intro l hl c hc
    by_cases h : l = []
    · subst h; simp [chunkList, chunksGo] at hc
    · rw [chunkList_cons bs hbs l h] at hc
      rcases List.mem_cons.mp hc with hc | hc
      · subst hc
        refine ⟨?_, by simp⟩
        have hpos : 0 < l.length := List.length_pos.mpr h
        have : 0 < (l.take bs).length := by
          simp only [List.length_take]
          omega
        exact List.ne_nil_of_length_pos this
      · exact ih (l.drop bs) (drop_length_le h bs hbs n hl) c hc

theorem chunkList_nil_iff (bs : Nat) (hbs : 1 ≤ bs) (l : List α) :
    chunkList bs l = [] ↔ l = [] := by
  constructor
  · intro hc
    by_contra h
    rw [chunkList_cons bs hbs l h] at hc
    cases hc
  · intro h; subst h; rfl

theorem chunkList_inner_full (bs : Nat) (hbs : 1 ≤ bs) :
    ∀ (n : Nat) (l : List α), l.length ≤ n →
      ∀ i : Nat, i + 1 < (chunkList bs l).length →
        ((chunkList bs l).getD i []).length = bs := by
  intro n
  induction n with
  | zero =>
    intro l hl i hi
    have : l = [] := List.length_eq_zero.mp (Nat.le_zero.mp hl)
    subst this; simp [chunkList, chunksGo] at hi
  | succ n ih =>
    intro l hl i hi
    by_cases h : l = []
    · subst h; simp [chunkList, chunksGo] at hi
    · rw [chunkList_cons bs hbs l h] at hi ⊢
      cases i with
      | zero =>
        simp only [List.getD_cons_zero]
        simp only [List.length_cons] at hi
        have hrest : chunkList bs (l.drop bs) ≠ [] := by
          intro hempty
          rw [hempty] at hi
          simp at hi
        have hdrop : l.drop bs ≠ [] :=
          fun hd => hrest (by rw [hd]; rfl)
        have hlen : bs < l.length := by
          by_contra hbl
          exact hdrop (List.drop_eq_nil_of_le (by omega))
        simp only [List.length_take]
        omega
      | succ j =>
        simp only [List.getD_cons_succ]
        exact ih (l.drop bs) (drop_length_le h bs hbs n hl) j
          (by simpa using hi)

end EmailManager

namespace EmailManager

/-! ## batchLoop behaviour lemmas -/

/-- A completed combined submission ends the retry loop at once, resetting
`retry_count` (i.e. returning `left = MAX_RETRIES`). -/
theorem batchLoop_done (env : DelEnv α) (bi : Nat) (batch : List α)
    (isLast : Bool) (left attempt : Nat) (st : DelState α) (f : α → Bool)
    (h : env.batchResp bi attempt = .done f) :
    batchLoop env bi batch isLast left attempt st =
      (batchDoneSt batch isLast f st, MAX_RETRIES, none) := by
  match left with
  | 0 => simp [batchLoop, h]
  | 1 => simp [batchLoop, h]
  | l + 2 => simp [batchLoop, h]

/-- A non-HttpError exception from the submission triggers the per-item
fallback and the loop ends without an exception escaping. -/
theorem batchLoop_exc (env : DelEnv α) (bi : Nat) (batch : List α)
    (isLast : Bool) (left attempt : Nat) (st : DelState α)
    (h : env.batchResp bi attempt = .exc) :
    batchLoop env bi batch isLast left attempt st =
      (runFallback env batch st, left, none) := by
  match left with
  | 0 => simp [batchLoop, h]
  | 1 => simp [batchLoop, h]
  | l + 2 => simp [batchLoop, h]

/-- A non-429 HttpError is re-raised: no fallback, the error escapes. -/
theorem batchLoop_httpErr (env : DelEnv α) (bi : Nat) (batch : List α)
    (isLast : Bool) (left attempt : Nat) (st : DelState α)
    (h : env.batchResp bi attempt = .httpErr) :
    batchLoop env bi batch isLast left attempt st =
      (st, left, some .httpErr) := by
  match left with
  | 0 => simp [batchLoop, h]
  | 1 => simp [batchLoop, h]
  | l + 2 => simp [batchLoop, h]

/-- A fresh retry loop whose submission throttles MAX_RETRIES times in a row
raises `RateLimitError`: `rate_limit_hits` grows by 5 (the increment happens
before the check, so also on the raising attempt) while only 4 backoff
sleeps happen (the fifth `_handle_rate_limit` raises before sleeping). -/
theorem batchLoop_exhaust (env : DelEnv α) (bi : Nat) (batch : List α)
    (isLast : Bool) (st : DelState α)
    (h : ∀ a, a < MAX_RETRIES → env.batchResp bi a = .throttled) :
    batchLoop env bi batch isLast MAX_RETRIES 0 st =
      ({ st with rate_limit_hits := st.rate_limit_hits + MAX_RETRIES,
                 trace := st.trace ++ [.sleepBackoff, .sleepBackoff,
                                      .sleepBackoff, .sleepBackoff] },
       1, some .rateLimit) := by
  have h0 := h 0 (by decide)
  have h1 := h 1 (by decide)
  have h2 := h 2 (by decide)
  have h3 := h 3 (by decide)
  have h4 := h 4 (by decide)
  show batchLoop env bi batch isLast (3 + 2) 0 st = _
  rw [batchLoop]
  rw [h0]
  show batchLoop env bi batch isLast (2 + 2) 1 (backoffSt st) = _
  rw [batchLoop, h1]
  show batchLoop env bi batch isLast (1 + 2) 2 _ = _
  rw [batchLoop, h2]
  show batchLoop env bi batch isLast (0 + 2) 3 _ = _
  rw [batchLoop, h3]
  show batchLoop env bi batch isLast 1 4 _ = _
  rw [batchLoop, h4]
  have harith : ∀ x : Nat, x + 1 + 1 + 1 + 1 + 1 = x + MAX_RETRIES := fun x => by
    show x + 1 + 1 + 1 + 1 + 1 = x + 5
    omega
  simp [backoffSt, hitSt, harith]

/-- Effect of `k` consecutive throttles followed by a completed submission: the loop
ends successfully with `k` extra rate-limit hits and `k` backoff sleeps. -/
theorem batchLoop_throttle_then_done (env : DelEnv α) (bi : Nat)
    (batch : List α) (isLast : Bool) :
    ∀ (k left attempt : Nat) (st : DelState α) (f : α → Bool),
      k + 1 ≤ left →
      (∀ a, a < k → env.batchResp bi (attempt + a) = .throttled) →
      env.batchResp bi (attempt + k) = .done f →
      batchLoop env bi batch isLast left attempt st =
        (batchDoneSt batch isLast f
          (st.app ⟨0, k, 0, List.replicate k .sleepBackoff⟩),
         MAX_RETRIES, none) := by
  intro k
  induction k with
  | zero =>
    intro left attempt st f hle hthr hdone
    rw [batchLoop_done env bi batch isLast left attempt st f
      (by simpa using hdone)]
    congr 1
    simp [DelState.app]
  | succ m ih =>
    intro left attempt st f hle hthr hdone
    obtain ⟨l, rfl⟩ : ∃ l, left = l + 2 := ⟨left - 2, by omega⟩
    have hfirst : env.batchResp bi attempt = .throttled := by
      simpa using hthr 0 (by omega)
    rw [batchLoop, hfirst]
    have hb : backoffSt st = st.app ⟨0, 1, 0, [Ev.sleepBackoff]⟩ := by
      simp [backoffSt, DelState.app]
    rw [hb]
    rw [ih (l + 1) (attempt + 1) _ f (by omega)
      (fun a ha => by
        have := hthr (a + 1) (by omega)
        simpa [Nat.add_assoc, Nat.add_comm 1 a] using this)
      (by
        have harg : attempt + 1 + m = attempt + (m + 1) := by omega
        rw [harg]; exact hdone)]
    rw [DelState.app_assoc]
    simp [DelState.app, List.replicate_succ, Nat.add_comm]

end EmailManager

namespace EmailManager

/-- Claim C2 (corrected): when every submission of the first batch throttles,
the exhausted retry loop's `RateLimitError` escapes `delete_user_emails`
(`some .rateLimit`); the batch is NOT downgraded to per-item fallback (no
individual delete attempt appears in the trace) and the run does not
continue (no batch ever completes, nothing is deleted). -/
theorem quota_error_reaches_caller :
    delete_user_emails (⟨fun _ _ => .throttled, fun _ _ => .ok⟩ : DelEnv Nat)
        (fun c => if c = "promotions" then some [0, 1] else none)
        20 "promotions" zeroSt =
      (⟨0, 5, 0, [.sleepBackoff, .sleepBackoff, .sleepBackoff, .sleepBackoff]⟩,
       some .rateLimit) ∧
    itemTries 0 (delete_user_emails (⟨fun _ _ => .throttled, fun _ _ => .ok⟩ : DelEnv Nat)
        (fun c => if c = "promotions" then some [0, 1] else none)
        20 "promotions" zeroSt).1.trace = 0 ∧
    batchesOf (delete_user_emails (⟨fun _ _ => .throttled, fun _ _ => .ok⟩ : DelEnv Nat)
        (fun c => if c = "promotions" then some [0, 1] else none)
        20 "promotions" zeroSt).1.trace = [] := by
  refine ⟨?_, ?_, ?_⟩ <;> decide

/-- Claim C2 (amended): exhausting the batch retry loop (MAX_RETRIES
consecutive throttles on a batch) makes `delete_user_emails` raise
`RateLimitError` to its caller; the whole call ends with nothing deleted
for that or any later batch, no fallback, 5 rate-limit hits and 4 backoff
sleeps recorded. -/
theorem batch_retry_exhaustion_raises (env : DelEnv α)
    (cache : String → Option (List α)) (b : Nat) (cat : String)
    (msgs : List α) (st₀ : DelState α)
    (hc : cache cat = some msgs) (hm : msgs ≠ []) (hb : 1 ≤ b)
    (hthr : ∀ a, a < MAX_RETRIES → env.batchResp 0 a = .throttled) :
    delete_user_emails env cache b cat st₀ =
      (⟨0, st₀.rate_limit_hits + MAX_RETRIES, st₀.total_requests,
        [.sleepBackoff, .sleepBackoff, .sleepBackoff, .sleepBackoff]⟩,
       some .rateLimit) := by
  unfold delete_user_emails
  rw [hc]
  have hme : msgs.isEmpty = false := by
    cases msgs with
    | nil => cases hm rfl
    | cons a l => rfl
  have hbs1 : 1 ≤ effBatchSize b := by
    simp only [effBatchSize]
    omega
  have hbs0 : ¬ effBatchSize b = 0 := by omega
  simp only [hme, Bool.false_eq_true, if_false, hbs0]
  rw [chunkList_cons _ hbs1 _ hm]
  simp only [processBatches]
  rw [batchLoop_exhaust env 0 _ _ _ hthr]
  simp

/-- Witness for C2 at a fully-throttled environment and a two-id cache. -/
theorem batch_retry_exhaustion_raises_witness :
    ((fun c => if c = "promotions" then some [(0 : Nat), 1] else none)
        "promotions" = some [0, 1] ∧
     ([(0 : Nat), 1]) ≠ [] ∧ 1 ≤ 20 ∧
     (∀ a, a < MAX_RETRIES →
       (⟨fun _ _ => .throttled, fun _ _ => .ok⟩ : DelEnv Nat).batchResp 0 a =
         .throttled)) ∧
    delete_user_emails (⟨fun _ _ => .throttled, fun _ _ => .ok⟩ : DelEnv Nat)
        (fun c => if c = "promotions" then some [0, 1] else none)
        20 "promotions" zeroSt =
      (⟨0, (zeroSt : DelState Nat).rate_limit_hits + MAX_RETRIES,
        (zeroSt : DelState Nat).total_requests,
        [.sleepBackoff, .sleepBackoff, .sleepBackoff, .sleepBackoff]⟩,
       some .rateLimit) :=
  ⟨⟨by decide, by decide, by decide, fun _ _ => rfl⟩,
   batch_retry_exhaustion_raises
     (⟨fun _ _ => .throttled, fun _ _ => .ok⟩ : DelEnv Nat)
     (fun c => if c = "promotions" then some [0, 1] else none)
     20 "promotions" [0, 1] zeroSt (by decide) (by decide)
     (by decide) (fun _ _ => rfl)⟩

end EmailManager

namespace EmailManager

/-! ## Fallback structure lemmas -/

theorem itemTries_append [DecidableEq α] (id : α) (a b : List (Ev α)) :
    itemTries id (a ++ b) = itemTries id a + itemTries id b := by
  simp [itemTries, List.countP_append]

/-- Per item, the fallback issues at most `budget` delete attempts. -/
theorem itemLoop_tries_le [DecidableEq α] (env : DelEnv α) (id : α) :
    ∀ b : Nat, itemTries id (itemLoop env id b zeroSt).trace ≤ b := by
  intro b
  induction b with
  | zero => simp [itemLoop, zeroSt, itemTries]
  | succ n ih =>
    simp only [itemLoop]
    cases henv : env.itemResp id (MAX_RETRIES - (n + 1)) with
    | ok => simp [zeroSt, itemTries]
    | throttled =>
      rw [itemLoop_decomp]
      simp only [DelState.app, itemTries_append]
      have h1 : itemTries id ([Ev.itemTry id] : List (Ev α)) = 1 := by
        simp [itemTries]
      have h2 : itemTries id ([Ev.sleepBackoff] : List (Ev α)) = 0 := by
        simp [itemTries]
      have h3 : itemTries id ([] : List (Ev α)) = 0 := by
        simp [itemTries]
      have h4 : itemTries id (zeroSt : DelState α).trace = 0 := by
        simp [zeroSt, itemTries]
      omega
    | httpErr => simp [zeroSt, itemTries]
    | exc => simp [zeroSt, itemTries]

/-- Per item, the fallback issues at least one delete attempt. -/
theorem itemLoop_tries_pos [DecidableEq α] (env : DelEnv α) (id : α)
    (b : Nat) (hb : 1 ≤ b) :
    1 ≤ itemTries id (itemLoop env id b zeroSt).trace := by
  obtain ⟨n, rfl⟩ : ∃ n, b = n + 1 := ⟨b - 1, by omega⟩
  simp only [itemLoop]
  cases henv : env.itemResp id (MAX_RETRIES - (n + 1)) with
  | ok => simp [zeroSt, itemTries]
  | throttled =>
    rw [itemLoop_decomp]
    simp only [DelState.app, itemTries_append]
    have h1 : itemTries id ([Ev.itemTry id] : List (Ev α)) = 1 := by
      simp [itemTries]
    omega
  | httpErr => simp [zeroSt, itemTries]
  | exc => simp [zeroSt, itemTries]

end EmailManager

namespace EmailManager

/-- The fallback's trace is the input trace followed by, for each id of the
batch in order, that id's own retry-loop trace and one fixed inter-item
sleep — the sleep happens regardless of the item's outcome. -/
theorem runFallback_trace (env : DelEnv α) :
    ∀ (batch : List α) (st : DelState α),
      (runFallback env batch st).trace =
        st.trace ++ (batch.map (fun id =>
          (itemLoop env id MAX_RETRIES zeroSt).trace ++ [Ev.sleepItem])).flatten := by
  intro batch
  induction batch with
  | nil => intro st; simp [runFallback_nil]
  | cons id rest ih =>
    intro st
    rw [runFallback_cons, ih]
    rw [itemLoop_decomp]
    simp [DelState.app, List.append_assoc]

/-- Every id of the batch receives at least one individual delete attempt in
the fallback. -/
theorem runFallback_covers [DecidableEq α] (env : DelEnv α) (batch : List α)
    (st : DelState α) :
    ∀ id ∈ batch, Ev.itemTry id ∈ (runFallback env batch st).trace := by
  intro id hid
  rw [runFallback_trace]
  refine List.mem_append_right _ ?_
  rw [List.mem_flatten]
  refine ⟨(itemLoop env id MAX_RETRIES zeroSt).trace ++ [Ev.sleepItem],
    List.mem_map_of_mem _ hid, ?_⟩
  refine List.mem_append_left _ ?_
  have hpos := itemLoop_tries_pos env id MAX_RETRIES (by decide)
  rw [itemTries] at hpos
  obtain ⟨e, he, hpe⟩ := List.countP_pos_iff.mp hpos
  have : e = Ev.itemTry id := by simpa using hpe
  rwa [this] at he

/-- Claim C1 (corrected/amended): the per-item fallback triggers exactly for
a non-HttpError exception from the combined submission (`.exc`); a
non-throttling HttpError is re-raised with NO fallback.  When the fallback
runs it is exhaustive: the trace appends, for each id of the batch in
order, that id's own retry loop (between 1 and MAX_RETRIES attempts) and a
fixed 2-second inter-item sleep regardless of the item's outcome. -/
theorem fallback_scope_and_exhaustiveness [DecidableEq α] (env : DelEnv α)
    (bi : Nat) (batch : List α) (isLast : Bool) (left attempt : Nat)
    (st : DelState α) :
    (env.batchResp bi attempt = .exc →
      batchLoop env bi batch isLast left attempt st =
        (runFallback env batch st, left, none)) ∧
    (env.batchResp bi attempt = .httpErr →
      batchLoop env bi batch isLast left attempt st =
        (st, left, some .httpErr)) ∧
    (runFallback env batch st).trace =
      st.trace ++ (batch.map (fun id =>
        (itemLoop env id MAX_RETRIES zeroSt).trace ++ [Ev.sleepItem])).flatten ∧
    (∀ id ∈ batch, Ev.itemTry id ∈ (runFallback env batch st).trace) ∧
    (∀ id : α, 1 ≤ itemTries id (itemLoop env id MAX_RETRIES zeroSt).trace ∧
      itemTries id (itemLoop env id MAX_RETRIES zeroSt).trace ≤ MAX_RETRIES) :=
  ⟨batchLoop_exc env bi batch isLast left attempt st,
   batchLoop_httpErr env bi batch isLast left attempt st,
   runFallback_trace env batch st,
   runFallback_covers env batch st,
   fun id => ⟨itemLoop_tries_pos env id MAX_RETRIES (by decide),
     itemLoop_tries_le env id MAX_RETRIES⟩⟩

/-- Counterexample for C1 as stated: a batch whose combined submission
raises a NON-THROTTLING failure that is an HttpError gets no fallback at
all — the error propagates and the single id 0 receives zero individual
delete attempts. -/
theorem http_error_skips_fallback :
    delete_user_emails (⟨fun _ _ => .httpErr, fun _ _ => .ok⟩ : DelEnv Nat)
        (fun c => if c = "promotions" then some [0] else none)
        20 "promotions" zeroSt = (⟨0, 0, 0, []⟩, some .httpErr) ∧
    itemTries 0 (delete_user_emails
        (⟨fun _ _ => .httpErr, fun _ _ => .ok⟩ : DelEnv Nat)
        (fun c => if c = "promotions" then some [0] else none)
        20 "promotions" zeroSt).1.trace = 0 := by
  constructor <;> decide

/-- Witness for C1 on a generic-exception environment and batch [7, 8]. -/
theorem fallback_scope_witness :
    batchLoop (⟨fun _ _ => .exc, fun _ _ => .ok⟩ : DelEnv Nat)
        0 [7, 8] true 5 0 zeroSt =
      (runFallback (⟨fun _ _ => .exc, fun _ _ => .ok⟩ : DelEnv Nat) [7, 8] zeroSt,
       5, none) ∧
    Ev.itemTry 7 ∈ (runFallback (⟨fun _ _ => .exc, fun _ _ => .ok⟩ : DelEnv Nat)
        [7, 8] zeroSt).trace ∧
    1 ≤ itemTries 7 (itemLoop (⟨fun _ _ => .exc, fun _ _ => .ok⟩ : DelEnv Nat)
        7 MAX_RETRIES zeroSt).trace ∧
    itemTries 7 (itemLoop (⟨fun _ _ => .exc, fun _ _ => .ok⟩ : DelEnv Nat)
        7 MAX_RETRIES zeroSt).trace ≤ MAX_RETRIES :=
  ⟨(fallback_scope_and_exhaustiveness
      (⟨fun _ _ => .exc, fun _ _ => .ok⟩ : DelEnv Nat) 0 [7, 8] true 5 0 zeroSt).1
      rfl,
   (fallback_scope_and_exhaustiveness
      (⟨fun _ _ => .exc, fun _ _ => .ok⟩ : DelEnv Nat) 0 [7, 8] true 5 0
      zeroSt).2.2.2.1 7 (by decide),
   ((fallback_scope_and_exhaustiveness
      (⟨fun _ _ => .exc, fun _ _ => .ok⟩ : DelEnv Nat) 0 [7, 8] true 5 0
      zeroSt).2.2.2.2 7).1,
   ((fallback_scope_and_exhaustiveness
      (⟨fun _ _ => .exc, fun _ _ => .ok⟩ : DelEnv Nat) 0 [7, 8] true 5 0
      zeroSt).2.2.2.2 7).2⟩

end EmailManager

namespace EmailManager

theorem batchesOf_append (a b : List (Ev α)) :
    batchesOf (a ++ b) = batchesOf a ++ batchesOf b := by
  simp [batchesOf]

/-- When every batch completes on its first submission, no exception escapes
and the submitted batch payloads are exactly the given chunks, in order. -/
theorem processBatches_batches (env : DelEnv α)
    (hd : ∀ bi, ∃ f, env.batchResp bi 0 = .done f) :
    ∀ (cs : List (List α)) (bi left : Nat) (st : DelState α),
      (processBatches env cs bi left st).2 = none ∧
      batchesOf (processBatches env cs bi left st).1.trace =
        batchesOf st.trace ++ cs := by
  intro cs
  induction cs with
  | nil => intro bi left st; simp [processBatches]
  | cons b rest ih =>
    intro bi left st
    obtain ⟨f, hf⟩ := hd bi
    simp only [processBatches]
    rw [batchLoop_done env bi b rest.isEmpty left 0 st f hf]
    have hrec := ih (bi + 1) MAX_RETRIES (batchDoneSt b rest.isEmpty f st)
    refine ⟨hrec.1, ?_⟩
    rw [hrec.2]
    have hbd : batchesOf (batchDoneSt b rest.isEmpty f st).trace =
        batchesOf st.trace ++ [b] := by
      cases hre : rest.isEmpty <;>
        simp [batchDoneSt, batchesOf, List.filterMap_append]
    rw [hbd]
    simp

/-- Counterexample for the "deduplicated" part of C5: a cache holding the id
3 twice is submitted as the batch `[3, 3]` — no deduplication happens, both
callbacks are counted, and `deleted_count` is 2. -/
theorem duplicates_not_removed :
    (delete_user_emails
        (⟨fun _ _ => .done (fun _ => true), fun _ _ => .ok⟩ : DelEnv Nat)
        (fun c => if c = "promotions" then some [3, 3] else none)
        20 "promotions" zeroSt).1.trace = [.batchExec [3, 3] 2] ∧
    ¬ ([3, 3] : List Nat).Nodup ∧
    (delete_user_emails
        (⟨fun _ _ => .done (fun _ => true), fun _ _ => .ok⟩ : DelEnv Nat)
        (fun c => if c = "promotions" then some [3, 3] else none)
        20 "promotions" zeroSt).1.deleted_count = 2 := by
  refine ⟨?_, ?_, ?_⟩ <;> decide

/-- Claim C5 (amended): `delete_user_emails` processes an order-preserving
(NOT deduplicated) partition of the cached list into contiguous,
non-overlapping batches of size at most `min(batch_size, 25)`, in list
order; every batch except possibly the last has exactly that size, only the
last may be smaller; when every batch completes, the submitted payloads are
exactly those chunks in order. -/
theorem batch_partition_properties (b : Nat) (msgs : List α) (hb : 1 ≤ b) :
    (chunkList (effBatchSize b) msgs).flatten = msgs ∧
    (∀ c ∈ chunkList (effBatchSize b) msgs,
      c ≠ [] ∧ c.length ≤ effBatchSize b) ∧
    (∀ i : Nat, i + 1 < (chunkList (effBatchSize b) msgs).length →
      ((chunkList (effBatchSize b) msgs).getD i []).length = effBatchSize b) ∧
    effBatchSize b ≤ 25 ∧
    (∀ (env : DelEnv α) (cache : String → Option (List α)) (cat : String)
       (st₀ : DelState α),
       cache cat = some msgs → msgs ≠ [] →
       (∀ bi, ∃ f, env.batchResp bi 0 = BatchResp.done f) →
       batchesOf (delete_user_emails env cache b cat st₀).1.trace =
         chunkList (effBatchSize b) msgs) := by
  have hbs1 : 1 ≤ effBatchSize b := by
    simp only [effBatchSize]
    omega
  refine ⟨chunkList_join _ hbs1 msgs.length msgs le_rfl,
          fun c hc => chunkList_sizes _ hbs1 msgs.length msgs le_rfl c hc,
          fun i hi => chunkList_inner_full _ hbs1 msgs.length msgs le_rfl i hi,
          by simp [effBatchSize], ?_⟩
  intro env cache cat st₀ hc hm hd
  unfold delete_user_emails
  rw [hc]
  have hme : msgs.isEmpty = false := by
    cases msgs with
    | nil => cases hm rfl
    | cons a l => rfl
  have hbs0 : ¬ effBatchSize b = 0 := by omega
  simp only [hme, Bool.false_eq_true, if_false, hbs0]
  have hpb := (processBatches_batches env hd (chunkList (effBatchSize b) msgs)
    0 MAX_RETRIES ⟨0, st₀.rate_limit_hits, st₀.total_requests, []⟩).2
  rw [hpb]
  simp [batchesOf]

/-- Witness for C5: the spec scenario of 47 ids at batch size 20 gives 3
batches (20, 20, 7), submitted in order. -/
theorem batch_partition_properties_witness :
    (chunkList (effBatchSize 20) (List.range 47)).flatten = List.range 47 ∧
    batchesOf (delete_user_emails
        (⟨fun _ _ => .done (fun _ => true), fun _ _ => .ok⟩ : DelEnv Nat)
        (fun c => if c = "promotions" then some (List.range 47) else none)
        20 "promotions" zeroSt).1.trace =
      chunkList (effBatchSize 20) (List.range 47) ∧
    (chunkList (effBatchSize 20) (List.range 47)).length = 3 :=
  ⟨(batch_partition_properties 20 (List.range 47) (by decide)).1,
   (batch_partition_properties 20 (List.range 47) (by decide)).2.2.2.2
     (⟨fun _ _ => .done (fun _ => true), fun _ _ => .ok⟩)
     (fun c => if c = "promotions" then some (List.range 47) else none)
     "promotions" zeroSt (by decide) (by decide)
     (fun _ => ⟨fun _ => true, rfl⟩),
   by decide⟩

end EmailManager

namespace EmailManager

/-! ## Listing claims -/

/-- On throttle-free, nonempty pages the paging loop accumulates every page
in order. -/
theorem fetchGo_pages (ps : List (List α)) (hps : ps ≠ [])
    (hne : ∀ p ∈ ps, p ≠ []) :
    ∀ (acc : List α) (rc : Nat),
      fetchGo (pagesToStream ps) rc acc = .ok (acc ++ ps.flatten) := by
  induction ps with
  | nil => cases hps rfl
  | cons p rest ih =>
    intro acc rc
    have hpne : p ≠ [] := hne p (by simp)
    have hpe : p.isEmpty = false := by
      cases p with
      | nil => cases hpne rfl
      | cons a l => rfl
    cases rest with
    | nil =>
      simp [pagesToStream, fetchGo, hpe]
    | cons q rs =>
      have hstream : pagesToStream (p :: q :: rs) =
          .page p true :: pagesToStream (q :: rs) := rfl
      rw [hstream]
      simp only [fetchGo, hpe, Bool.false_eq_true, if_false, if_true]
      rw [ih (by simp) (fun x hx => hne x (by simp [hx])) (acc ++ p) rc]
      simp

/-- Counterexample for C6 as stated: a successful page with no messages but
a continuation token ends listing immediately — the page sequence
`[[], [0]]` has no cross-page duplicates, yet `fetch` returns `[]`, not the
concatenation `[0]` of all pages. -/
theorem empty_page_truncates_listing :
    fetch_user_emails (pagesToStream [([] : List Nat), [0]]) = .ok [] ∧
    ([([] : List Nat), [0]]).flatten = [0] ∧
    (FetchResult.ok ([] : List Nat)) ≠ .ok [0] := by
  refine ⟨?_, ?_, ?_⟩ <;> decide

/-- Claim C6 (amended): for every NONEMPTY sequence of successful nonempty
pages, `fetch` returns exactly the concatenation of the pages' ids in
strict page order; if moreover each page is duplicate-free and the pages
are pairwise disjoint, no identifier appears twice in the result. -/
theorem fetch_concatenates_pages (pages : List (List α))
    (hp : pages ≠ []) (hne : ∀ p ∈ pages, p ≠ []) :
    fetch_user_emails (pagesToStream pages) = .ok pages.flatten ∧
    ((∀ p ∈ pages, p.Nodup) → pages.Pairwise List.Disjoint →
      pages.flatten.Nodup) := by
  constructor
  · have h := fetchGo_pages pages hp hne [] 0
    simpa [fetch_user_emails] using h
  · intro h1 h2
    exact List.nodup_flatten.mpr ⟨h1, h2⟩

set_option maxRecDepth 100000 in
/-- Witness for C6: three pages of 100, 100 and 37 distinct ids produce
exactly the 237 ids in page order, without duplicates. -/
theorem fetch_concatenates_pages_witness :
    ((([List.range' 0 100, List.range' 100 100, List.range' 200 37]) :
        List (List Nat)) ≠ [] ∧
     (∀ p ∈ ([List.range' 0 100, List.range' 100 100, List.range' 200 37] :
        List (List Nat)), p ≠ [])) ∧
    fetch_user_emails (pagesToStream
        [List.range' 0 100, List.range' 100 100, List.range' 200 37]) =
      .ok (([List.range' 0 100, List.range' 100 100, List.range' 200 37] :
        List (List Nat)).flatten) ∧
    (([List.range' 0 100, List.range' 100 100, List.range' 200 37] :
        List (List Nat)).flatten).length = 237 ∧
    (([List.range' 0 100, List.range' 100 100, List.range' 200 37] :
        List (List Nat)).flatten).Nodup :=
  ⟨⟨by decide, by decide⟩,
   (fetch_concatenates_pages
      [List.range' 0 100, List.range' 100 100, List.range' 200 37]
      (by decide) (by decide)).1,
   by decide,
   by
     have : (([List.range' 0 100, List.range' 100 100, List.range' 200 37] :
         List (List Nat)).flatten) = List.range' 0 237 := by decide
     rw [this]
     exact List.nodup_range' ..⟩

end EmailManager

namespace EmailManager

/-! ## Throttling-recovery claims -/

/-- Fewer than MAX_RETRIES throttling responses in the whole listing are
absorbed: the loop behaves as if the throttles were not there. -/
theorem fetchGo_throttles_absorbed :
    ∀ (stream : List (ListResp α)) (rc : Nat) (acc v : List α),
      countThrottles stream + rc < MAX_RETRIES →
      fetchGo (dropThrottles stream) 0 acc = .ok v →
      fetchGo stream rc acc = .ok v := by
  intro stream
  induction stream with
  | nil =>
    intro rc acc v h hfg
    simp [dropThrottles, fetchGo] at hfg
  | cons r rest ih =>
    intro rc acc v h hfg
    cases r with
    | page ids next =>
      have hd : dropThrottles (ListResp.page ids next :: rest) =
          ListResp.page ids next :: dropThrottles rest := by
        simp [dropThrottles]
      rw [hd] at hfg
      have hct : countThrottles (ListResp.page ids next :: rest) =
          countThrottles rest := by
        simp [countThrottles]
      by_cases hids : ids.isEmpty = true
      · simp only [fetchGo, hids, if_true] at hfg ⊢
        exact hfg
      · simp only [Bool.not_eq_true] at hids
        cases next with
        | true =>
          simp only [fetchGo, hids, Bool.false_eq_true, if_false, if_true] at hfg ⊢
          exact ih rc (acc ++ ids) v (by rw [hct] at h; exact h) hfg
        | false =>
          simp only [fetchGo, hids, Bool.false_eq_true, if_false] at hfg ⊢
          exact hfg
    | throttled =>
      have hd : dropThrottles (ListResp.throttled :: rest) =
          dropThrottles rest := by
        simp [dropThrottles]
      rw [hd] at hfg
      have hct : countThrottles (ListResp.throttled :: rest) =
          countThrottles rest + 1 := by
        simp [countThrottles]
      rw [hct] at h
      simp only [fetchGo]
      rw [if_neg (by omega)]
      exact ih (rc + 1) acc v (by omega) hfg
    | err =>
      have hd : dropThrottles (ListResp.err :: rest) =
          ListResp.err :: dropThrottles rest := by
        simp [dropThrottles]
      rw [hd] at hfg
      simp [fetchGo] at hfg

/-- When batch `bi` throttles `k bi < MAX_RETRIES` times and then completes,
for every batch, the whole run finishes without an exception and records
exactly `k bi` extra rate-limit hits per batch. -/
theorem processBatches_all_success (env : DelEnv α) (k : Nat → Nat)
    (f : Nat → α → Bool)
    (hk : ∀ bi, k bi < MAX_RETRIES)
    (hthr : ∀ bi a, a < k bi → env.batchResp bi a = .throttled)
    (hdone : ∀ bi, env.batchResp bi (k bi) = .done (f bi)) :
    ∀ (cs : List (List α)) (bi : Nat) (st : DelState α),
      (processBatches env cs bi MAX_RETRIES st).2 = none ∧
      (processBatches env cs bi MAX_RETRIES st).1.rate_limit_hits =
        st.rate_limit_hits + ∑ j ∈ Finset.range cs.length, k (bi + j) := by
  intro cs
  induction cs with
  | nil => intro bi st; simp [processBatches]
  | cons b rest ih =>
    intro bi st
    simp only [processBatches]
    rw [batchLoop_throttle_then_done env bi b rest.isEmpty (k bi) MAX_RETRIES
      0 st (f bi) (by have := hk bi; omega)
      (fun a ha => by simpa using hthr bi a ha)
      (by simpa using hdone bi)]
    have hrec := ih (bi + 1) (batchDoneSt b rest.isEmpty (f bi)
      (st.app ⟨0, k bi, 0, List.replicate (k bi) Ev.sleepBackoff⟩))
    refine ⟨hrec.1, ?_⟩
    rw [hrec.2]
    have hh : (batchDoneSt b rest.isEmpty (f bi)
        (st.app ⟨0, k bi, 0, List.replicate (k bi)
          Ev.sleepBackoff⟩)).rate_limit_hits =
        st.rate_limit_hits + k bi := by
      simp [batchDoneSt, DelState.app]
    rw [hh]
    have hsum : ∑ j ∈ Finset.range (b :: rest).length, k (bi + j) =
        (∑ j ∈ Finset.range rest.length, k (bi + (j + 1))) + k (bi + 0) := by
      simp only [List.length_cons]
      exact Finset.sum_range_succ' (fun j => k (bi + j)) rest.length
    rw [hsum]
    have hcongr : ∑ j ∈ Finset.range rest.length, k (bi + 1 + j) =
        ∑ j ∈ Finset.range rest.length, k (bi + (j + 1)) :=
      Finset.sum_congr rfl (fun j _ => by
        have harg : bi + 1 + j = bi + (j + 1) := by omega
        rw [harg])
    rw [hcongr]
    simp only [Nat.add_zero]
    omega

end EmailManager

namespace EmailManager

/-- Counterexample for C3 as stated: `fetch_user_emails` never resets its
retry counter after a successful page, so throttles accumulate ACROSS
pages: page 1 throttles 3 times and page 2 throttles twice — each below
MAX_RETRIES = 5 — yet the listing surfaces an error to the caller. -/
theorem cross_page_retry_accumulation :
    fetch_user_emails ([.throttled, .throttled, .throttled,
      .page [0] true, .throttled, .throttled, .page [1] false] :
        List (ListResp Nat)) = .err ∧
    (3 : Nat) < MAX_RETRIES ∧ (2 : Nat) < MAX_RETRIES := by
  refine ⟨?_, ?_, ?_⟩ <;> decide

/-- Claim C3 (amended): throttling is absorbed locally as long as the
relevant retry budget is not exhausted, and no error reaches the caller.
For LISTING the budget is shared across the whole operation (never reset on
page success): if the TOTAL number of throttled responses stays below
MAX_RETRIES, `fetch` behaves exactly as without them.  For DELETION the
budget is per batch (reset on success): if every batch is throttled
`k bi < MAX_RETRIES` times before completing, the run raises nothing and
performs exactly `k bi` retries per batch (`rate_limit_hits` grows by their
sum). -/
theorem local_throttle_recovery (stream : List (ListResp α)) (v : List α)
    (env : DelEnv α) (k : Nat → Nat) (f : Nat → α → Bool)
    (cache : String → Option (List α)) (b : Nat) (cat : String)
    (msgs : List α) (st₀ : DelState α) :
    (countThrottles stream < MAX_RETRIES →
      fetchGo (dropThrottles stream) 0 [] = .ok v →
      fetch_user_emails stream = .ok v) ∧
    ((∀ bi, k bi < MAX_RETRIES) →
     (∀ bi a, a < k bi → env.batchResp bi a = .throttled) →
     (∀ bi, env.batchResp bi (k bi) = .done (f bi)) →
     cache cat = some msgs → msgs ≠ [] → 1 ≤ b →
       (delete_user_emails env cache b cat st₀).2 = none ∧
       (delete_user_emails env cache b cat st₀).1.rate_limit_hits =
         st₀.rate_limit_hits +
           ∑ j ∈ Finset.range (chunkList (effBatchSize b) msgs).length, k j) := by
  constructor
  · intro hct hfg
    exact fetchGo_throttles_absorbed stream 0 [] v (by omega) hfg
  · intro hk hthr hdone hc hm hb
    unfold delete_user_emails
    rw [hc]
    have hme : msgs.isEmpty = false := by
      cases msgs with
      | nil => cases hm rfl
      | cons a l => rfl
    have hbs0 : ¬ effBatchSize b = 0 := by
      simp only [effBatchSize]
      omega
    simp only [hme, Bool.false_eq_true, if_false, hbs0]
    have hall := processBatches_all_success env k f hk hthr hdone
      (chunkList (effBatchSize b) msgs) 0
      ⟨0, st₀.rate_limit_hits, st₀.total_requests, []⟩
    refine ⟨hall.1, ?_⟩
    rw [hall.2]
    simp

/-- Witness for C3: one throttle during listing and one throttle before
each of the (single) batch's successful submission. -/
theorem local_throttle_recovery_witness :
    ((countThrottles ([.throttled, .page [5] false] : List (ListResp Nat)) <
        MAX_RETRIES) ∧
     fetchGo (dropThrottles ([.throttled, .page [5] false] :
        List (ListResp Nat))) 0 [] = .ok [5]) ∧
    fetch_user_emails ([.throttled, .page [5] false] : List (ListResp Nat)) =
      .ok [5] ∧
    (delete_user_emails
        (⟨fun _ a => if a = 0 then .throttled else .done (fun _ => true),
          fun _ _ => .ok⟩ : DelEnv Nat)
        (fun c => if c = "promotions" then some [0, 1] else none)
        20 "promotions" zeroSt).2 = none ∧
    (delete_user_emails
        (⟨fun _ a => if a = 0 then .throttled else .done (fun _ => true),
          fun _ _ => .ok⟩ : DelEnv Nat)
        (fun c => if c = "promotions" then some [0, 1] else none)
        20 "promotions" zeroSt).1.rate_limit_hits =
      (zeroSt : DelState Nat).rate_limit_hits +
        ∑ _j ∈ Finset.range
          (chunkList (effBatchSize 20) ([0, 1] : List Nat)).length, 1 := by
  have h := local_throttle_recovery (α := Nat)
    [.throttled, .page [5] false] [5]
    ⟨fun _ a => if a = 0 then .throttled else .done (fun _ => true),
      fun _ _ => .ok⟩
    (fun _ => 1) (fun _ _ => true)
    (fun c => if c = "promotions" then some [0, 1] else none)
    20 "promotions" [0, 1] zeroSt
  have hdel := h.2 (fun _ => by decide)
    (fun bi a ha => by
      have h0 : a = 0 := by omega
      subst h0
      rfl)
    (fun _ => rfl) (by decide) (by decide) (by decide)
  exact ⟨⟨by decide, by decide⟩, h.1 (by decide) (by decide), hdel.1, hdel.2⟩

end EmailManager
